import Mathlib

/-!
Verification development for the face-attendance system
(`ACTLA/face_attendance_system`).

The repository contains two variants of each core component:
`src/face_recognition_engine.py` / `src/camera_manager.py` (the "root"
variants) and `src/core/face_recognition_engine.py` /
`src/core/camera_manager.py` (the "core" variants).  Where their behaviour
differs both are embedded, with `Core` in the name of the core variant's
model.

Modelling conventions:
* embeddings are lists of rationals (`Emb`), timestamps and distances are
  rationals;
* the external `face_recognition.face_distance` routine (not part of this
  repository) is an explicit function parameter `dist`;
* the face-detection stage (`_detect_faces`, a wrapper around the external
  `face_recognition` library) is represented by the list of detections it
  returned for the frame, passed to `processFrame` as data;
* Python dictionaries (`last_recognitions`) are association lists with
  insertion-order semantics and unique keys;
* `_save_to_cache` is modelled by returning the written snapshot contents
  (`Option (List CachedUser)`, `none` when nothing was written).
-/

namespace FaceAttend

/-- A face embedding: `face_encoding` / `encoding`, a numeric vector
(128-dimensional when valid). -/
abbrev Emb := List ℚ

/-- A bounding box `(top, right, bottom, left)` in frame coordinates. -/
abbrev Loc := ℤ × ℤ × ℤ × ℤ

/-- `CachedUser` from `src/face_recognition_engine.py` (the core variant
keeps the same data as a dict in `known_users` plus a parallel
`known_encodings` list; both are projected to this record). -/
structure CachedUser where
  id : ℤ
  user_id : String
  full_name : String
  encoding : Emb
deriving DecidableEq

instance : Inhabited CachedUser := ⟨⟨0, "", "", []⟩⟩

/-- `FaceMatch` from both engine variants. -/
structure FaceMatch where
  user_id : ℤ
  user_code : String
  full_name : String
  confidence : ℚ
  face_location : Loc
  timestamp : ℚ
deriving DecidableEq

/-- The cooldown ledger `last_recognitions`: a Python dict from user id to
the timestamp of the last accepted match, as an association list in
insertion order. -/
abbrev Ledger := List (ℤ × ℚ)

/-- A database row as returned by `db.get_all_users()`, restricted to the
fields the engine reads. -/
structure UserRow where
  id : ℤ
  user_id : String
  full_name : String
  face_encoding : Option (List ℚ)
deriving DecidableEq

/-- The `stats` dictionary of the engine. -/
structure Stats where
  frames_processed : ℕ
  faces_detected : ℕ
  faces_recognized : ℕ
  processing_time_avg : ℚ
deriving DecidableEq

/-- The mutable state of `FaceRecognitionEngine` relevant to frame
processing. -/
structure EngineState where
  cached_users : List CachedUser
  last_recognitions : Ledger
  frame_counter : ℕ
  stats : Stats
deriving DecidableEq

/-- A detection produced by `_detect_faces` for one frame: scaled-back
location and the face encoding. -/
abbrev Det := Loc × Emb

/-! ### Minimum and argmin over a list of distances

`np.argmin` returns the first index attaining the minimum; these two
functions model `np.argmin(distances)` and `distances[min_distance_idx]`. -/

/-- The minimum of a list of rationals (`0` for the empty list, which the
engine never queries: `_recognize_face` bails out on an empty cache). -/
def listMin : List ℚ → ℚ
  | [] => 0
  | x :: xs =>
    match xs with
    | [] => x
    | _ :: _ => min x (listMin xs)

/-- The first index attaining the minimum, as `np.argmin` computes it. -/
def idxOfMin : List ℚ → ℕ
  | [] => 0
  | x :: xs =>
    match xs with
    | [] => 0
    | _ :: _ => if x ≤ listMin xs then 0 else idxOfMin xs + 1

/-! ### Matching (`_recognize_face`)

Both variants implement the same algorithm: distances from the detection's
encoding to every cached encoding, `np.argmin`, tolerance test,
`confidence = 1.0 - min_distance`.  The external
`face_recognition.face_distance` routine is the parameter `dist`. -/

/-- `_recognize_face` (src/face_recognition_engine.py:257-313 and
src/core/face_recognition_engine.py:260-293). -/
def recognizeFace (dist : Emb → Emb → ℚ) (tol : ℚ) (cache : List CachedUser)
    (location : Loc) (enc : Emb) (now : ℚ) : Option FaceMatch :=
  if cache.isEmpty then none
  else
    let distances := cache.map (fun u => dist u.encoding enc)
    let i := idxOfMin distances
    let m := distances.getD i 0
    if m ≤ tol then
      match cache[i]? with
      | some u =>
        some { user_id := u.id, user_code := u.user_id, full_name := u.full_name,
               confidence := 1 - m, face_location := location, timestamp := now }
      | none => none
    else none

/-! ### Cooldown ledger (`last_recognitions`) -/

/-- Dict lookup `d[k]` / `k in d`. -/
def ledgerLookup : Ledger → ℤ → Option ℚ
  | [], _ => none
  | p :: rest, k => if p.1 == k then some p.2 else ledgerLookup rest k

/-- Dict assignment `d[k] = v`: updates the existing entry in place, or
appends a new one (Python dicts preserve insertion order). -/
def ledgerInsert : Ledger → ℤ → ℚ → Ledger
  | [], k, v => [(k, v)]
  | p :: rest, k, v => if p.1 == k then (k, v) :: rest else p :: ledgerInsert rest k v

/-- Dict deletion `del d[k]` guarded by `k in d` (keys are unique). -/
def ledgerErase (l : Ledger) (k : ℤ) : Ledger :=
  l.filter (fun p => p.1 != k)

/-- `_should_process_recognition`
(src/face_recognition_engine.py:315-329 and
src/core/face_recognition_engine.py:295-305): suppress when the same user
matched strictly less than `cooldown` seconds ago. -/
def shouldProcessRecognition (cooldown : ℚ) (ledger : Ledger) (m : FaceMatch) : Bool :=
  match ledgerLookup ledger m.user_id with
  | some last => if m.timestamp - last < cooldown then false else true
  | none => true

/-- `_update_last_recognition` (src/face_recognition_engine.py:331-346):
record the match timestamp, then purge entries older than
`RECOGNITION_COOLDOWN * 3` (the core variant purges with factor `2`
instead; the factor is irrelevant to the claims and the root factor is
used).  `now` models the `time.time()` read inside the purge. -/
def updateLastRecognition (cooldown : ℚ) (ledger : Ledger) (m : FaceMatch)
    (now : ℚ) : Ledger :=
  let l1 := ledgerInsert ledger m.user_id m.timestamp
  l1.filter (fun p => decide (now - p.2 ≤ cooldown * 3))

/-- The per-match gate inside `process_frame` (the body
`if match and self._should_process_recognition(match): matches.append(match);
self._update_last_recognition(match)`): returns whether the match was
emitted and the resulting ledger. -/
def applyMatch (cooldown : ℚ) (ledger : Ledger) (m : FaceMatch) (now : ℚ) :
    Bool × Ledger :=
  if shouldProcessRecognition cooldown ledger m then
    (true, updateLastRecognition cooldown ledger m now)
  else (false, ledger)

/-- The recognition loop of `process_frame`: fold over the frame's
detections, recognizing each and applying the cooldown gate. -/
def recognizeLoop (dist : Emb → Emb → ℚ) (tol cooldown : ℚ)
    (cache : List CachedUser) (now : ℚ) :
    Ledger → List Det → List FaceMatch × Ledger
  | ledger, [] => ([], ledger)
  | ledger, (loc, enc) :: rest =>
    match recognizeFace dist tol cache loc enc now with
    | some m =>
      let g := applyMatch cooldown ledger m now
      let r := recognizeLoop dist tol cooldown cache now g.2 rest
      (if g.1 then m :: r.1 else r.1, r.2)
    | none => recognizeLoop dist tol cooldown cache now ledger rest

/-- `_update_stats` (src/face_recognition_engine.py:348-362 and
src/core/face_recognition_engine.py:321-332), with `alpha = 0.1`. -/
def updateStats (s : Stats) (processing_time : ℚ) (faces_detected faces_recognized : ℕ) :
    Stats :=
  { frames_processed := s.frames_processed + 1
    faces_detected := s.faces_detected + faces_detected
    faces_recognized := s.faces_recognized + faces_recognized
    processing_time_avg :=
      (1 / 10) * processing_time + (1 - 1 / 10) * s.processing_time_avg }

/-- `process_frame` (src/face_recognition_engine.py:158-199 and
src/core/face_recognition_engine.py:177-219): increment the frame counter,
skip unless `counter % frame_skip == 0`, return empty when the detector
found nothing, otherwise run the recognition loop and update statistics.
`dets` is the output of `_detect_faces` for this frame, `now` the current
time and `elapsed` the measured processing time. -/
def processFrame (dist : Emb → Emb → ℚ) (tol : ℚ) (frame_skip : ℕ) (cooldown : ℚ)
    (st : EngineState) (dets : List Det) (now elapsed : ℚ) :
    EngineState × List FaceMatch :=
  let c := st.frame_counter + 1
  if c % frame_skip ≠ 0 then ({ st with frame_counter := c }, [])
  else if dets.isEmpty then ({ st with frame_counter := c }, [])
  else
    let r :=
      recognizeLoop dist tol cooldown st.cached_users now st.last_recognitions dets
    let stats1 := updateStats st.stats elapsed dets.length r.1.length
    ({ st with frame_counter := c, last_recognitions := r.2, stats := stats1 },
     r.1)

/-- A run of the engine over a sequence of invocations of
`process_frame`; each input carries the detections the external detector
returned for that frame plus the two clock readings. -/
def runEngine (dist : Emb → Emb → ℚ) (tol : ℚ) (frame_skip : ℕ) (cooldown : ℚ) :
    EngineState → List (List Det × ℚ × ℚ) → EngineState × List (List FaceMatch)
  | st, [] => (st, [])
  | st, (dets, now, elapsed) :: rest =>
    let p := processFrame dist tol frame_skip cooldown st dets now elapsed
    let r := runEngine dist tol frame_skip cooldown p.1 rest
    (r.1, p.2 :: r.2)

/-- A freshly initialised engine: empty ledger, `frame_counter = 0`,
zeroed statistics. -/
def initState (cache : List CachedUser) : EngineState :=
  { cached_users := cache
    last_recognitions := []
    frame_counter := 0
    stats := { frames_processed := 0, faces_detected := 0, faces_recognized := 0,
               processing_time_avg := 0 } }

/-! ### Cache mutation (`add_new_face`, `remove_face`) -/

/-- Python's slice `l[-k:]` (for `k = 0` it is `l[0:]`, the whole list). -/
def pySliceLast (k : ℕ) (l : List CachedUser) : List CachedUser :=
  if k = 0 then l else l.drop (l.length - k)

/-- The validation both variants apply before caching a row: a truthy
`face_encoding` whose `np.array` has shape `(128,)`. -/
def toCachedUser (row : UserRow) : Option CachedUser :=
  match row.face_encoding with
  | some e =>
    if e.length = 128 then
      some { id := row.id, user_id := row.user_id, full_name := row.full_name,
             encoding := e }
    else none
  | none => none

/-- `add_new_face` (src/face_recognition_engine.py:372-395): validate the
row, append it, trim the cache to its last `maxCache` entries when it
exceeds `maxCache` (`MAX_FACE_ENCODINGS_CACHE`, default 1000 via
`PerformanceConfig.cache_size`), and persist the snapshot.  Returns the
new cache and the snapshot written (`none` when validation failed and
nothing happened). -/
def addNewFace (maxCache : ℕ) (cache : List CachedUser) (row : UserRow) :
    List CachedUser × Option (List CachedUser) :=
  match toCachedUser row with
  | some u =>
    let c1 := cache ++ [u]
    let c2 := if c1.length > maxCache then pySliceLast maxCache c1 else c1
    (c2, some c2)
  | none => (cache, none)

/-- `add_new_face` of the core variant
(src/core/face_recognition_engine.py:352-368): validate, append and
persist — there is no cache-size bound in this variant. -/
def addNewFaceCore (cache : List CachedUser) (row : UserRow) :
    List CachedUser × Option (List CachedUser) :=
  match toCachedUser row with
  | some u => (cache ++ [u], some (cache ++ [u]))
  | none => (cache, none)

/-- `remove_face` (src/face_recognition_engine.py:397-412): keep only the
entries whose id differs, purge the cooldown ledger, persist the
snapshot.  Returns (new cache, new ledger, snapshot written). -/
def removeFace (cache : List CachedUser) (ledger : Ledger) (uid : ℤ) :
    List CachedUser × Ledger × Option (List CachedUser) :=
  let cache1 := cache.filter (fun u => u.id != uid)
  (cache1, ledgerErase ledger uid, some cache1)

/-- The `for ... if user['id'] == user_id: del ...; break` loop of the
core variant's `remove_face`: delete the first entry with this id and
stop, or return `none` when no entry matched. -/
def removeFirstById : List CachedUser → ℤ → Option (List CachedUser)
  | [], _ => none
  | u :: rest, uid =>
    if u.id == uid then some rest
    else (removeFirstById rest uid).map (u :: ·)

/-- `remove_face` of the core variant
(src/core/face_recognition_engine.py:370-383): the loop `break`s after the
first deletion; ledger purge and snapshot write happen only when an entry
was found. -/
def removeFaceCore (cache : List CachedUser) (ledger : Ledger) (uid : ℤ) :
    List CachedUser × Ledger × Option (List CachedUser) :=
  match removeFirstById cache uid with
  | some cache1 => (cache1, ledgerErase ledger uid, some cache1)
  | none => (cache, ledger, none)

/-! ### Cache loading (`load_known_faces` / `_load_from_cache`) -/

/-- `_load_from_database` (both variants): fetch all rows and keep those
with a present encoding of dimension 128; invalid rows are skipped with a
warning, never fatal. -/
def validCachedUsers (rows : List UserRow) : List CachedUser :=
  rows.filterMap toCachedUser

/-- The state of the snapshot file: `none` = absent, `some none` =
present but corrupt or unreadable (`pickle.load`/`open` raises),
`some (some users)` = readable with these contents. -/
abbrev SnapshotFile := Option (Option (List CachedUser))

/-- `load_known_faces` / `_load_face_encodings`
(src/face_recognition_engine.py:76-133 and
src/core/face_recognition_engine.py:80-134): use the snapshot when it
exists and is younger than one hour (`fresh`); a corrupt snapshot is
caught inside `_load_from_cache`, which falls back to
`_load_from_database`; an absent or stale snapshot goes to the database
directly. -/
def loadKnownFaces (snap : SnapshotFile) (fresh : Bool) (rows : List UserRow) :
    List CachedUser :=
  match snap with
  | some content =>
    if fresh then
      match content with
      | some users => users
      | none => validCachedUsers rows
    else validCachedUsers rows
  | none => validCachedUsers rows

/-! ### Camera capture loop (`_capture_loop`) -/

/-- A frame buffer; `[]` models `frame.size == 0`. -/
abbrev Frame := List ℕ

/-- How a capture loop run ended: `fault` = the consecutive-error
threshold was reached, the loop broke out and (since `_is_running` still
holds) `camera_error` was emitted; `drained e` = the modelled read trace
was exhausted with the loop still running and error count `e`. -/
inductive CaptureExit where
  | fault : CaptureExit
  | drained : ℕ → CaptureExit
deriving DecidableEq

/-- `_capture_loop` (src/camera_manager.py:189-247) over a finite trace of
read results (`none` = `ret` false or `frame is None`): failed reads
increment `consecutive_errors` and break out at `maxErr`
(`max_consecutive_errors = 10`); successful reads reset the counter to 0
and deliver the frame to `_distribute_frame` unless it is empty.  Returns
the exit reason and the frames delivered. -/
def captureLoop (maxErr : ℕ) : ℕ → List (Option Frame) → CaptureExit × List Frame
  | e, [] => (.drained e, [])
  | e, none :: rs =>
    if e + 1 ≥ maxErr then (.fault, [])
    else captureLoop maxErr (e + 1) rs
  | _, some f :: rs =>
    let r := captureLoop maxErr 0 rs
    if f.isEmpty then r else (r.1, f :: r.2)

/-- `_capture_loop` of the core variant
(src/core/camera_manager.py:185-220): a failed read only logs and sleeps —
there is no failure counter, no threshold and no fault exit; the FPS
pacing is not modelled. -/
def captureLoopCore : List (Option Frame) → List Frame
  | [] => []
  | none :: rs => captureLoopCore rs
  | some f :: rs => f :: captureLoopCore rs

/-! ### Frame fan-out (`_distribute_frame`)

Buffer identity matters here, so frames live in an explicit store and
subscribers receive buffer ids: two subscribers can observe each other's
mutations exactly when they received the same id. -/

/-- A store of allocated frame buffers, addressed by index. -/
structure FrameStore where
  bufs : List Frame
deriving DecidableEq

/-- `frame.copy()`: allocate a fresh buffer with the given contents. -/
def allocBuf (h : FrameStore) (content : Frame) : FrameStore × ℕ :=
  (⟨h.bufs ++ [content]⟩, h.bufs.length)

/-- Overwrite buffer `b` (a subscriber mutating the array it received). -/
def writeBuf (h : FrameStore) (b : ℕ) (content : Frame) : FrameStore :=
  ⟨h.bufs.set b content⟩

/-- Read buffer `b`. -/
def readBuf (h : FrameStore) (b : ℕ) : Frame :=
  h.bufs.getD b []

/-- A registered frame callback; `isGui` models the string test
`'display_frame' in str(cb) or 'on_frame_ready' in str(cb)`. -/
structure Subscriber where
  sid : ℕ
  isGui : Bool
deriving DecidableEq

/-- `_distribute_frame` (src/camera_manager.py:271-284): iterate the
snapshot of the callback list in registration order, skip GUI callbacks,
and invoke every other callback with `frame.copy()` — a fresh buffer per
subscriber.  Returns the store and the deliveries `(sid, buffer id)`. -/
def distributeFrame (h : FrameStore) (frame : Frame) :
    List Subscriber → FrameStore × List (ℕ × ℕ)
  | [] => (h, [])
  | s :: rest =>
    if s.isGui then distributeFrame h frame rest
    else
      let a := allocBuf h frame
      let r := distributeFrame a.1 frame rest
      (r.1, (s.sid, a.2) :: r.2)

/-- `_distribute_frame` of the core variant
(src/core/camera_manager.py:222-229) as invoked from its capture loop
(`self._distribute_frame(frame.copy())`, line 210): one copy is allocated
and every subscriber is called with that same buffer. -/
def distributeFrameCore (h : FrameStore) (frame : Frame) (subs : List Subscriber) :
    FrameStore × List (ℕ × ℕ) :=
  let a := allocBuf h frame
  (a.1, subs.map (fun s => (s.sid, a.2)))

/-- The discrete metric on embeddings, a concrete instance of the external
distance capability used to exercise the matching theorems on concrete
inputs. -/
def dDisc : Emb → Emb → ℚ := fun x y => if x = y then 0 else 1

/-! ### Properties of `listMin` and `idxOfMin` -/

theorem listMin_cons (x : ℚ) (xs : List ℚ) (h : xs ≠ []) :
    listMin (x :: xs) = min x (listMin xs) := by
  cases xs with
  | nil => exact absurd rfl h
  | cons y ys => rfl

theorem idxOfMin_cons (x : ℚ) (xs : List ℚ) (h : xs ≠ []) :
    idxOfMin (x :: xs) = if x ≤ listMin xs then 0 else idxOfMin xs + 1 := by
  cases xs with
  | nil => exact absurd rfl h
  | cons y ys => rfl

/-- The minimum bounds every element. -/
theorem listMin_le (l : List ℚ) : ∀ j, j < l.length → listMin l ≤ l.getD j 0 := by
  induction l with
  | nil => intro j hj; simp at hj
  | cons x xs ih =>
    intro j hj
    cases xs with
    | nil =>
      have hj0 : j = 0 := by simp at hj; omega
      subst hj0
      simp [listMin]
    | cons y ys =>
      rw [listMin_cons x (y :: ys) (by simp)]
      cases j with
      | zero => simp only [List.getD_cons_zero]; exact min_le_left x (listMin (y :: ys))
      | succ k =>
        have hk : k < (y :: ys).length := by
          simpa [Nat.succ_lt_succ_iff] using hj
        calc min x (listMin (y :: ys)) ≤ listMin (y :: ys) := min_le_right _ _
          _ ≤ (y :: ys).getD k 0 := ih k hk
          _ = (x :: y :: ys).getD (k + 1) 0 := by simp

/-- The argmin index is in range for a non-empty list. -/
theorem idxOfMin_lt_length (l : List ℚ) (h : l ≠ []) : idxOfMin l < l.length := by
  induction l with
  | nil => exact absurd rfl h
  | cons x xs ih =>
    cases xs with
    | nil => simp [idxOfMin]
    | cons y ys =>
      rw [idxOfMin_cons x (y :: ys) (by simp)]
      by_cases hx : x ≤ listMin (y :: ys)
      · simp [hx]
      · have h2 := ih (by simp)
        simp only [hx, if_false]
        simp only [List.length_cons] at h2 ⊢
        omega

/-- The element at the argmin index is the minimum. -/
theorem getD_idxOfMin (l : List ℚ) (h : l ≠ []) :
    l.getD (idxOfMin l) 0 = listMin l := by
  induction l with
  | nil => exact absurd rfl h
  | cons x xs ih =>
    cases xs with
    | nil => simp [idxOfMin, listMin]
    | cons y ys =>
      rw [idxOfMin_cons x (y :: ys) (by simp), listMin_cons x (y :: ys) (by simp)]
      by_cases hx : x ≤ listMin (y :: ys)
      · simp only [hx, if_true, List.getD_cons_zero]
        exact (min_eq_left hx).symm
      · push_neg at hx
        simp only [not_le.mpr hx, if_false]
        have : (x :: y :: ys).getD (idxOfMin (y :: ys) + 1) 0 =
            (y :: ys).getD (idxOfMin (y :: ys)) 0 := by simp
        rw [this, ih (by simp), min_eq_right (le_of_lt hx)]

/-- Every index strictly before the argmin holds a strictly larger value:
`np.argmin` picks the first index attaining the minimum. -/
theorem listMin_lt_of_lt_idxOfMin (l : List ℚ) :
    ∀ j, j < idxOfMin l → listMin l < l.getD j 0 := by
  induction l with
  | nil => intro j hj; simp [idxOfMin] at hj
  | cons x xs ih =>
    intro j hj
    cases xs with
    | nil => simp [idxOfMin] at hj
    | cons y ys =>
      rw [idxOfMin_cons x (y :: ys) (by simp)] at hj
      by_cases hx : x ≤ listMin (y :: ys)
      · simp [hx] at hj
      · push_neg at hx
        simp only [not_le.mpr hx, if_false] at hj
        rw [listMin_cons x (y :: ys) (by simp), min_eq_right (le_of_lt hx)]
        cases j with
        | zero => simpa using hx
        | succ k =>
          have hk : k < idxOfMin (y :: ys) := by omega
          simpa using ih k hk

/-- If index `k` attains the minimum and no earlier index does, then `k`
is the argmin. -/
theorem idxOfMin_eq_of_first (l : List ℚ) (hne : l ≠ []) (k : ℕ)
    (hmin : l.getD k 0 = listMin l)
    (hfirst : ∀ j, j < k → l.getD j 0 ≠ listMin l) : idxOfMin l = k := by
  rcases lt_trichotomy (idxOfMin l) k with h | h | h
  · exact absurd (getD_idxOfMin l hne) (hfirst _ h)
  · exact h
  · have := listMin_lt_of_lt_idxOfMin l k h
    rw [hmin] at this
    exact absurd this (lt_irrefl _)

/-- The minimum of a non-empty list is one of its elements. -/
theorem listMin_mem (l : List ℚ) (h : l ≠ []) : listMin l ∈ l := by
  induction l with
  | nil => exact absurd rfl h
  | cons x xs ih =>
    cases xs with
    | nil => simp [listMin]
    | cons y ys =>
      rw [listMin_cons x (y :: ys) (by simp)]
      rcases min_cases x (listMin (y :: ys)) with ⟨heq, _⟩ | ⟨heq, _⟩
      · rw [heq]; exact List.mem_cons_self x (y :: ys)
      · rw [heq]; exact List.mem_cons_of_mem x (ih (by simp))

/-! ### Branch behaviour of `_recognize_face` -/

/-- When the minimal distance is within tolerance, `_recognize_face`
returns a match for the cache entry at the argmin index, with
`confidence = 1 - min_distance`. -/
theorem recognizeFace_of_min_le (dist : Emb → Emb → ℚ) (tol : ℚ)
    (cache : List CachedUser) (loc : Loc) (enc : Emb) (now : ℚ) (hne : cache ≠ [])
    (hm : listMin (cache.map (fun u => dist u.encoding enc)) ≤ tol) :
    ∃ u, cache[idxOfMin (cache.map (fun u => dist u.encoding enc))]? = some u ∧
      recognizeFace dist tol cache loc enc now =
        some { user_id := u.id, user_code := u.user_id, full_name := u.full_name,
               confidence := 1 - listMin (cache.map (fun u => dist u.encoding enc)),
               face_location := loc, timestamp := now } := by
  obtain ⟨a, as, rfl⟩ : ∃ a as, cache = a :: as := by
    cases cache with
    | nil => exact absurd rfl hne
    | cons a as => exact ⟨a, as, rfl⟩
  have hds : (a :: as).map (fun u => dist u.encoding enc) ≠ [] := by simp
  have hi : idxOfMin ((a :: as).map (fun u => dist u.encoding enc)) <
      (a :: as).length := by
    have h1 := idxOfMin_lt_length _ hds
    simpa using h1
  refine ⟨(a :: as).get ⟨_, hi⟩, ?_, ?_⟩
  · rw [List.getElem?_eq_getElem hi]
    simp
  · simp only [recognizeFace, List.isEmpty_cons, Bool.false_eq_true, if_false]
    rw [getD_idxOfMin _ hds, if_pos hm, List.getElem?_eq_getElem hi]
    simp

/-- When the minimal distance exceeds tolerance, `_recognize_face`
returns no match. -/
theorem recognizeFace_of_tol_lt (dist : Emb → Emb → ℚ) (tol : ℚ)
    (cache : List CachedUser) (loc : Loc) (enc : Emb) (now : ℚ) (hne : cache ≠ [])
    (hm : tol < listMin (cache.map (fun u => dist u.encoding enc))) :
    recognizeFace dist tol cache loc enc now = none := by
  obtain ⟨a, as, rfl⟩ : ∃ a as, cache = a :: as := by
    cases cache with
    | nil => exact absurd rfl hne
    | cons a as => exact ⟨a, as, rfl⟩
  have hds : (a :: as).map (fun u => dist u.encoding enc) ≠ [] := by simp
  simp only [recognizeFace, List.isEmpty_cons, Bool.false_eq_true, if_false]
  rw [getD_idxOfMin _ hds, if_neg (not_le.mpr hm)]

/-- `_recognize_face` on an empty cache returns `None`. -/
theorem recognizeFace_nil (dist : Emb → Emb → ℚ) (tol : ℚ)
    (loc : Loc) (enc : Emb) (now : ℚ) :
    recognizeFace dist tol [] loc enc now = none := rfl

theorem dDisc_nonneg (x y : Emb) : 0 ≤ dDisc x y := by
  unfold dDisc
  split
  · exact le_refl 0
  · exact zero_le_one

theorem dDisc_eq_zero_iff (x y : Emb) : dDisc x y = 0 ↔ x = y := by
  unfold dDisc
  split
  · simpa
  · constructor
    · intro h; exact absurd h one_ne_zero
    · intro h; simp_all

/-- C1: for a non-empty identity cache, `_recognize_face` computes the
distance from the detection's embedding to every cached embedding and
takes the minimum; the argmin index is the first index attaining that
minimum; if the minimum is within tolerance a match for that entry is
returned with `confidence = 1 - min_distance`, otherwise no match; and a
detection whose embedding exactly equals a cached embedding (for a
distance with `d x y = 0 ↔ x = y`, `d ≥ 0`, as the Euclidean
`face_distance` is) is matched to the earliest such cache entry with
confidence exactly `1`. -/
theorem C1_recognize (dist : Emb → Emb → ℚ) (tol : ℚ) (cache : List CachedUser)
    (loc : Loc) (enc : Emb) (now : ℚ) (hne : cache ≠ []) :
    (∀ j, j < cache.length →
      listMin (cache.map (fun u => dist u.encoding enc)) ≤
        (cache.map (fun u => dist u.encoding enc)).getD j 0) ∧
    (∀ j, j < idxOfMin (cache.map (fun u => dist u.encoding enc)) →
      listMin (cache.map (fun u => dist u.encoding enc)) <
        (cache.map (fun u => dist u.encoding enc)).getD j 0) ∧
    (listMin (cache.map (fun u => dist u.encoding enc)) ≤ tol →
      ∃ u, cache[idxOfMin (cache.map (fun u => dist u.encoding enc))]? = some u ∧
        recognizeFace dist tol cache loc enc now =
          some { user_id := u.id, user_code := u.user_id, full_name := u.full_name,
                 confidence :=
                   1 - listMin (cache.map (fun u => dist u.encoding enc)),
                 face_location := loc, timestamp := now }) ∧
    (tol < listMin (cache.map (fun u => dist u.encoding enc)) →
      recognizeFace dist tol cache loc enc now = none) ∧
    (∀ (k : ℕ) (u : CachedUser), cache[k]? = some u → u.encoding = enc →
      (∀ (j : ℕ) (v : CachedUser), j < k → cache[j]? = some v → v.encoding ≠ enc) →
      (∀ x y, 0 ≤ dist x y) → (∀ x y, dist x y = 0 ↔ x = y) → 0 ≤ tol →
      recognizeFace dist tol cache loc enc now =
        some { user_id := u.id, user_code := u.user_id, full_name := u.full_name,
               confidence := 1, face_location := loc, timestamp := now }) := by
  have hds : cache.map (fun u => dist u.encoding enc) ≠ [] := by
    simpa using hne
  refine ⟨?_, ?_, ?_, ?_, ?_⟩
  · intro j hj
    exact listMin_le _ j (by simpa using hj)
  · intro j hj
    exact listMin_lt_of_lt_idxOfMin _ j hj
  · intro hm
    exact recognizeFace_of_min_le dist tol cache loc enc now hne hm
  · intro hm
    exact recognizeFace_of_tol_lt dist tol cache loc enc now hne hm
  · intro k u hk henc hfirst hd0 hiff htol
    obtain ⟨hklen, hku⟩ := List.getElem?_eq_some_iff.mp hk
    have hdk : (cache.map (fun u => dist u.encoding enc)).getD k 0 = 0 := by
      rw [List.getD_eq_getElem?_getD, List.getElem?_map, hk]
      show dist u.encoding enc = 0
      rw [henc]
      exact (hiff enc enc).mpr rfl
    have hmin0 : listMin (cache.map (fun u => dist u.encoding enc)) = 0 := by
      have h1 : listMin (cache.map (fun u => dist u.encoding enc)) ≤ 0 := by
        have := listMin_le (cache.map (fun u => dist u.encoding enc)) k
          (by simpa using hklen)
        rwa [hdk] at this
      have h2 : 0 ≤ listMin (cache.map (fun u => dist u.encoding enc)) := by
        obtain ⟨v, _, hveq⟩ :=
          List.mem_map.mp (listMin_mem (cache.map (fun u => dist u.encoding enc)) hds)
        rw [← hveq]
        exact hd0 _ _
      exact le_antisymm h1 h2
    have hidx : idxOfMin (cache.map (fun u => dist u.encoding enc)) = k := by
      refine idxOfMin_eq_of_first _ hds k (by rw [hdk, hmin0]) ?_
      intro j hj
      have hjlen : j < cache.length := lt_trans hj hklen
      have hv : cache[j]? = some cache[j] := List.getElem?_eq_getElem hjlen
      have hvne : (cache[j]).encoding ≠ enc := hfirst j _ hj hv
      rw [List.getD_eq_getElem?_getD, List.getElem?_map, hv, hmin0]
      show dist (cache[j]).encoding enc ≠ 0
      intro h0
      exact hvne ((hiff _ _).mp h0)
    obtain ⟨u2, hu2, hrec⟩ :=
      recognizeFace_of_min_le dist tol cache loc enc now hne (by rw [hmin0]; exact htol)
    rw [hidx, hk] at hu2
    obtain rfl : u = u2 := Option.some.inj hu2
    rw [hrec, hmin0]
    norm_num

/-- Concrete instantiation of `C1_recognize`: a detection whose embedding
exactly equals the second cached identity's embedding matches it with
confidence `1`. -/
theorem C1_witness :
    recognizeFace dDisc 1 [⟨1, "A", "Alice", [1]⟩, ⟨2, "B", "Bob", [2]⟩]
        (0, 0, 0, 0) [2] 5 =
      some { user_id := 2, user_code := "B", full_name := "Bob", confidence := 1,
             face_location := (0, 0, 0, 0), timestamp := 5 } := by
  have h := (C1_recognize dDisc 1 [⟨1, "A", "Alice", [1]⟩, ⟨2, "B", "Bob", [2]⟩]
      (0, 0, 0, 0) [2] 5 (by simp)).2.2.2.2
  refine h 1 ⟨2, "B", "Bob", [2]⟩ rfl rfl ?_ dDisc_nonneg dDisc_eq_zero_iff zero_le_one
  intro j v hj hv
  have hj0 : j = 0 := by omega
  subst hj0
  obtain rfl : v = (⟨1, "A", "Alice", [1]⟩ : CachedUser) := by
    injection hv with h2; exact h2.symm
  simp

/-! ### Frame-skip behaviour of `process_frame` -/

/-- A skipped invocation (`counter % frame_skip != 0`) only increments
the counter and returns the empty list. -/
theorem processFrame_skip (dist : Emb → Emb → ℚ) (tol : ℚ) (N : ℕ) (cooldown : ℚ)
    (st : EngineState) (dets : List Det) (now elapsed : ℚ)
    (h : (st.frame_counter + 1) % N ≠ 0) :
    processFrame dist tol N cooldown st dets now elapsed =
      ({ st with frame_counter := st.frame_counter + 1 }, []) := by
  simp [processFrame, h]

/-- Every invocation of `process_frame` increments the frame counter by
one. -/
theorem processFrame_counter (dist : Emb → Emb → ℚ) (tol : ℚ) (N : ℕ) (cooldown : ℚ)
    (st : EngineState) (dets : List Det) (now elapsed : ℚ) :
    (processFrame dist tol N cooldown st dets now elapsed).1.frame_counter =
      st.frame_counter + 1 := by
  simp only [processFrame]
  split
  · rfl
  · split <;> rfl

/-- A non-skipped invocation with detections records them in the
statistics. -/
theorem processFrame_detected (dist : Emb → Emb → ℚ) (tol : ℚ) (N : ℕ) (cooldown : ℚ)
    (st : EngineState) (dets : List Det) (now elapsed : ℚ)
    (hskip : (st.frame_counter + 1) % N = 0) (hdets : dets ≠ []) :
    (processFrame dist tol N cooldown st dets now elapsed).1.stats.faces_detected =
      st.stats.faces_detected + dets.length := by
  simp [processFrame, hskip, List.isEmpty_iff, hdets, updateStats]

/-- The counter counts invocations across a run. -/
theorem runEngine_counter (dist : Emb → Emb → ℚ) (tol : ℚ) (N : ℕ) (cooldown : ℚ) :
    ∀ (inputs : List (List Det × ℚ × ℚ)) (st : EngineState),
      (runEngine dist tol N cooldown st inputs).1.frame_counter =
        st.frame_counter + inputs.length := by
  intro inputs
  induction inputs with
  | nil => intro st; simp [runEngine]
  | cons x rest ih =>
    intro st
    obtain ⟨dets, now, elapsed⟩ := x
    simp only [runEngine]
    rw [ih, processFrame_counter]
    simp only [List.length_cons]
    omega

/-- In a run, an invocation whose counter is not a multiple of
`frame_skip` contributes the empty output. -/
theorem runEngine_skip_output (dist : Emb → Emb → ℚ) (tol : ℚ) (N : ℕ) (cooldown : ℚ) :
    ∀ (inputs : List (List Det × ℚ × ℚ)) (st : EngineState) (i : ℕ),
      i < inputs.length → (st.frame_counter + i + 1) % N ≠ 0 →
      (runEngine dist tol N cooldown st inputs).2[i]? = some [] := by
  intro inputs
  induction inputs with
  | nil => intro st i hi; simp at hi
  | cons x rest ih =>
    intro st i hi hmod
    obtain ⟨dets, now, elapsed⟩ := x
    simp only [runEngine]
    cases i with
    | zero =>
      rw [processFrame_skip dist tol N cooldown st dets now elapsed
        (by simpa using hmod)]
      simp
    | succ j =>
      simp only [List.getElem?_cons_succ]
      apply ih
      · simpa using hi
      · rw [processFrame_counter]
        have heq : st.frame_counter + 1 + j + 1 = st.frame_counter + (j + 1) + 1 := by
          omega
        rw [heq]
        exact hmod

/-- C2: for `frame_skip = N ≥ 1` and any sequence of invocations from a
fresh engine, the counter counts invocations; an invocation whose counter
is not a multiple of `N` returns the empty list and performs no work
beyond the counter increment; an invocation whose counter is a multiple
of `N` performs detection (its statistics absorb the detector's output);
and exactly `1` of every `N` invocations (`⌊k/N⌋` among the first `k`)
has a counter that is a multiple of `N`. -/
theorem C2_frame_skip (dist : Emb → Emb → ℚ) (tol : ℚ) (N : ℕ) (cooldown : ℚ)
    (cache : List CachedUser) (inputs : List (List Det × ℚ × ℚ)) (hN : 1 ≤ N) :
    ((runEngine dist tol N cooldown (initState cache) inputs).1.frame_counter =
      inputs.length) ∧
    (∀ (st : EngineState) (dets : List Det) (now elapsed : ℚ),
      (st.frame_counter + 1) % N ≠ 0 →
      processFrame dist tol N cooldown st dets now elapsed =
        ({ st with frame_counter := st.frame_counter + 1 }, [])) ∧
    (∀ i, i < inputs.length → (i + 1) % N ≠ 0 →
      (runEngine dist tol N cooldown (initState cache) inputs).2[i]? = some []) ∧
    (∀ (st : EngineState) (dets : List Det) (now elapsed : ℚ),
      (st.frame_counter + 1) % N = 0 → dets ≠ [] →
      (processFrame dist tol N cooldown st dets now elapsed).1.stats.faces_detected =
        st.stats.faces_detected + dets.length) ∧
    ((Finset.range inputs.length).filter (fun i => N ∣ i + 1)).card =
      inputs.length / N := by
  refine ⟨?_, ?_, ?_, ?_, ?_⟩
  · rw [runEngine_counter]
    simp [initState]
  · intro st dets now elapsed h
    exact processFrame_skip dist tol N cooldown st dets now elapsed h
  · intro i hi hmod
    apply runEngine_skip_output dist tol N cooldown inputs (initState cache) i hi
    simpa [initState] using hmod
  · intro st dets now elapsed h1 h2
    exact processFrame_detected dist tol N cooldown st dets now elapsed h1 h2
  · simpa using Nat.card_multiples inputs.length N

/-- Concrete instantiation of `C2_frame_skip` at `frame_skip = 3` over
three invocations. -/
theorem C2_witness :
    (runEngine dDisc 1 3 2 (initState [])
      [([], 0, 0), ([], 1, 0), ([], 2, 0)]).1.frame_counter = 3 :=
  (C2_frame_skip dDisc 1 3 2 [] [([], 0, 0), ([], 1, 0), ([], 2, 0)]
    (by norm_num)).1

/-! ### Statistics update -/

/-- C9 counterexample: with `frame_skip = 1` the very first invocation
passes the frame-skip check (`(0 + 1) % 1 = 0`), yet when the detector
returns no faces `process_frame` returns before `_update_stats`, so
`frames_processed` stays `0` instead of becoming `1` as the claim
requires. -/
theorem C9_counterexample :
    (0 + 1) % 1 = 0 ∧
    (processFrame dDisc 1 1 2 (initState []) [] 0 0).1.stats.frames_processed = 0 := by
  constructor
  · norm_num
  · rfl

/-- C9 (amended): an invocation that passes the frame-skip check updates
the statistics only when the detector returned at least one face; then
`frames_processed` increases by one, `faces_detected` and
`faces_recognized` absorb the frame's counts, and the average latency is
exponentially smoothed with factor `0.1`.  With zero detections the
statistics are unchanged. -/
theorem C9_stats (dist : Emb → Emb → ℚ) (tol : ℚ) (N : ℕ) (cooldown : ℚ)
    (st : EngineState) (dets : List Det) (now elapsed : ℚ)
    (hskip : (st.frame_counter + 1) % N = 0) :
    (dets = [] →
      (processFrame dist tol N cooldown st dets now elapsed).1.stats = st.stats) ∧
    (dets ≠ [] →
      (processFrame dist tol N cooldown st dets now elapsed).1.stats.frames_processed =
        st.stats.frames_processed + 1 ∧
      (processFrame dist tol N cooldown st dets now elapsed).1.stats.faces_detected =
        st.stats.faces_detected + dets.length ∧
      (processFrame dist tol N cooldown st dets now elapsed).1.stats.faces_recognized =
        st.stats.faces_recognized +
          (processFrame dist tol N cooldown st dets now elapsed).2.length ∧
      (processFrame dist tol N cooldown st dets
          now elapsed).1.stats.processing_time_avg =
        (1 / 10) * elapsed + (9 / 10) * st.stats.processing_time_avg) := by
  constructor
  · rintro rfl
    simp [processFrame, hskip]
  · intro hdets
    refine ⟨?_, ?_, ?_, ?_⟩ <;>
      simp [processFrame, hskip, List.isEmpty_iff, hdets, updateStats] <;>
      ring_nf <;> norm_num

/-- Concrete instantiation of `C9_stats`: one detection, empty cache,
`frame_skip = 1`. -/
theorem C9_witness :
    (processFrame dDisc 1 1 2 (initState []) [((0, 0, 0, 0), [1])]
      0 0).1.stats.frames_processed = 0 + 1 :=
  ((C9_stats dDisc 1 1 2 (initState []) [((0, 0, 0, 0), [1])] 0 0
    (Nat.mod_one _)).2 (by simp)).1

/-! ### Empty identity cache -/

/-- With an empty cache the recognition loop matches nothing and leaves
the ledger untouched. -/
theorem recognizeLoop_nil_cache (dist : Emb → Emb → ℚ) (tol cooldown now : ℚ) :
    ∀ (dets : List Det) (ledger : Ledger),
      recognizeLoop dist tol cooldown [] now ledger dets = ([], ledger) := by
  intro dets
  induction dets with
  | nil => intro ledger; rfl
  | cons d rest ih =>
    intro ledger
    obtain ⟨loc, enc⟩ := d
    simp only [recognizeLoop, recognizeFace_nil]
    exact ih ledger

/-- C10: with an empty identity cache, `process_frame` emits no match and
creates no cooldown-ledger entry, regardless of the frame's detections. -/
theorem C10_empty_cache (dist : Emb → Emb → ℚ) (tol : ℚ) (N : ℕ) (cooldown : ℚ)
    (st : EngineState) (dets : List Det) (now elapsed : ℚ)
    (hc : st.cached_users = []) :
    (processFrame dist tol N cooldown st dets now elapsed).2 = [] ∧
    (processFrame dist tol N cooldown st dets now elapsed).1.last_recognitions =
      st.last_recognitions := by
  simp only [processFrame]
  split
  · exact ⟨rfl, rfl⟩
  · split
    · exact ⟨rfl, rfl⟩
    · rw [hc, recognizeLoop_nil_cache]
      exact ⟨rfl, rfl⟩

/-- Concrete instantiation of `C10_empty_cache`: empty cache, one
detection, `frame_skip = 1`. -/
theorem C10_witness :
    (processFrame dDisc 1 1 2 (initState []) [((0, 0, 0, 0), [1])] 0 0).2 = [] :=
  (C10_empty_cache dDisc 1 1 2 (initState []) [((0, 0, 0, 0), [1])] 0 0 rfl).1

/-! ### Cooldown ledger lemmas -/

/-- Looking up a key just inserted returns the inserted value. -/
theorem ledgerLookup_ledgerInsert_self (l : Ledger) (k : ℤ) (v : ℚ) :
    ledgerLookup (ledgerInsert l k v) k = some v := by
  induction l with
  | nil => simp [ledgerInsert, ledgerLookup]
  | cons p rest ih =>
    by_cases h : p.1 = k
    · simp [ledgerInsert, ledgerLookup, h]
    · simp [ledgerInsert, ledgerLookup, h, ih]

/-- Filtering preserves a looked-up entry that satisfies the predicate. -/
theorem ledgerLookup_filter (p : ℤ × ℚ → Bool) (l : Ledger) (k : ℤ) (v : ℚ)
    (hl : ledgerLookup l k = some v) (hp : p (k, v) = true) :
    ledgerLookup (l.filter p) k = some v := by
  induction l with
  | nil => simp [ledgerLookup] at hl
  | cons q rest ih =>
    obtain ⟨k1, v1⟩ := q
    by_cases h : k1 = k
    · subst h
      have hv : v1 = v := by
        simpa [ledgerLookup] using hl
      subst hv
      rw [List.filter_cons_of_pos hp]
      simp [ledgerLookup]
    · have hl2 : ledgerLookup rest k = some v := by
        simpa [ledgerLookup, h] using hl
      by_cases hq : p (k1, v1) = true
      · rw [List.filter_cons_of_pos hq]
        simpa [ledgerLookup, h] using ih hl2
      · rw [List.filter_cons_of_neg (by simpa using hq)]
        exact ih hl2

/-- After `_update_last_recognition` at the match's own timestamp, the
ledger holds that timestamp for the matched user (the fresh entry
survives the opportunistic purge whenever the cooldown is nonnegative). -/
theorem updateLastRecognition_lookup (cooldown : ℚ) (ledger : Ledger)
    (m : FaceMatch) (hcd : 0 ≤ cooldown) :
    ledgerLookup (updateLastRecognition cooldown ledger m m.timestamp) m.user_id =
      some m.timestamp := by
  unfold updateLastRecognition
  apply ledgerLookup_filter
  · exact ledgerLookup_ledgerInsert_self ledger m.user_id m.timestamp
  · simp only [decide_eq_true_eq]
    have h0 : m.timestamp - m.timestamp = 0 := by ring
    rw [h0]
    exact mul_nonneg hcd (by norm_num)

/-- C3: a match of identity `X` arriving strictly less than `cooldown`
seconds after the last accepted match of `X` is suppressed and leaves the
ledger unchanged; a match arriving at least `cooldown` seconds later, or
when `X` has no ledger entry, is emitted and records its timestamp in the
ledger. -/
theorem C3_cooldown (cooldown : ℚ) (ledger : Ledger) (m : FaceMatch)
    (hcd : 0 ≤ cooldown) :
    (∀ t0, ledgerLookup ledger m.user_id = some t0 → m.timestamp - t0 < cooldown →
      applyMatch cooldown ledger m m.timestamp = (false, ledger)) ∧
    (∀ t0, ledgerLookup ledger m.user_id = some t0 → cooldown ≤ m.timestamp - t0 →
      (applyMatch cooldown ledger m m.timestamp).1 = true ∧
      ledgerLookup (applyMatch cooldown ledger m m.timestamp).2 m.user_id =
        some m.timestamp) ∧
    (ledgerLookup ledger m.user_id = none →
      (applyMatch cooldown ledger m m.timestamp).1 = true ∧
      ledgerLookup (applyMatch cooldown ledger m m.timestamp).2 m.user_id =
        some m.timestamp) := by
  refine ⟨?_, ?_, ?_⟩
  · intro t0 hlk hlt
    simp [applyMatch, shouldProcessRecognition, hlk, hlt]
  · intro t0 hlk hge
    have hgate : shouldProcessRecognition cooldown ledger m = true := by
      simp [shouldProcessRecognition, hlk, not_lt.mpr hge]
    constructor
    · simp [applyMatch, hgate]
    · simp only [applyMatch, hgate, if_true]
      exact updateLastRecognition_lookup cooldown ledger m hcd
  · intro hlk
    have hgate : shouldProcessRecognition cooldown ledger m = true := by
      simp [shouldProcessRecognition, hlk]
    constructor
    · simp [applyMatch, hgate]
    · simp only [applyMatch, hgate, if_true]
      exact updateLastRecognition_lookup cooldown ledger m hcd

/-- Concrete instantiation of `C3_cooldown`: a repeat match of user `1`
one second after the accepted match, with a two-second cooldown, is
suppressed. -/
theorem C3_witness :
    applyMatch 2 [(1, 10)] ⟨1, "A", "Alice", 1, (0, 0, 0, 0), 11⟩ 11 =
      (false, [(1, 10)]) :=
  (C3_cooldown 2 [(1, 10)] ⟨1, "A", "Alice", 1, (0, 0, 0, 0), 11⟩
    (by norm_num)).1 10 (by simp [ledgerLookup]) (by norm_num)

/-! ### Capture-loop retry policy -/

/-- A failed read below the threshold increments the error count and
retries. -/
theorem captureLoop_failure_retry (maxErr e : ℕ) (rs : List (Option Frame))
    (h : e + 1 < maxErr) :
    captureLoop maxErr e (none :: rs) = captureLoop maxErr (e + 1) rs := by
  simp only [captureLoop]
  rw [if_neg (not_le.mpr h)]

/-- Fewer consecutive failures than the threshold never fault the loop. -/
theorem captureLoop_below_threshold (maxErr : ℕ) :
    ∀ k e : ℕ, e + k < maxErr →
      captureLoop maxErr e (List.replicate k none) =
        (CaptureExit.drained (e + k), []) := by
  intro k
  induction k with
  | zero => intro e h; simp [captureLoop]
  | succ j ih =>
    intro e h
    rw [List.replicate_succ, captureLoop_failure_retry maxErr e _ (by omega),
      ih (e + 1) (by omega)]
    have heq : e + 1 + j = e + (j + 1) := by omega
    rw [heq]

/-- Enough consecutive failures to reach the threshold fault the loop at
once, whatever reads would have followed. -/
theorem captureLoop_fault_at_threshold (maxErr : ℕ) :
    ∀ k e : ℕ, 1 ≤ k → maxErr ≤ e + k → ∀ rs : List (Option Frame),
      captureLoop maxErr e (List.replicate k none ++ rs) =
        (CaptureExit.fault, []) := by
  intro k
  induction k with
  | zero => intro e h1; omega
  | succ j ih =>
    intro e _ h2 rs
    rw [List.replicate_succ, List.cons_append]
    by_cases hth : maxErr ≤ e + 1
    · simp only [captureLoop]
      rw [if_pos hth]
    · rw [captureLoop_failure_retry maxErr e _ (by omega)]
      exact ih (e + 1) (by omega) (by omega) rs

/-- C4 counterexample: the core variant's acquisition loop
(src/core/camera_manager.py) has no consecutive-failure counter: after ten
consecutive failed reads it neither emits a fault nor exits — it keeps
reading and still delivers the next good frame. -/
theorem C4_counterexample :
    captureLoopCore (List.replicate 10 none ++ [some [7]]) = [[7]] := by decide

/-- C4 (amended): in `src/camera_manager.py`'s `_capture_loop`, every
failed read increments the consecutive-failure counter and the loop
retries while the count is below the threshold; reaching the threshold
(default 10) emits the fault notification and exits; a successful read
resets the counter to zero.  The core variant's loop
(src/core/camera_manager.py) counts nothing and retries indefinitely. -/
theorem C4_retry_policy (maxErr : ℕ) (rs : List (Option Frame)) :
    (∀ e, e + 1 < maxErr →
      captureLoop maxErr e (none :: rs) = captureLoop maxErr (e + 1) rs) ∧
    (∀ e, maxErr ≤ e + 1 →
      captureLoop maxErr e (none :: rs) = (CaptureExit.fault, [])) ∧
    (∀ (e e' : ℕ) (f : Frame),
      captureLoop maxErr e (some f :: rs) = captureLoop maxErr e' (some f :: rs)) ∧
    (∀ k, k < maxErr →
      captureLoop maxErr 0 (List.replicate k none) = (CaptureExit.drained k, [])) ∧
    (1 ≤ maxErr →
      captureLoop maxErr 0 (List.replicate maxErr none ++ rs) =
        (CaptureExit.fault, [])) ∧
    (∀ k, captureLoopCore (List.replicate k none ++ rs) = captureLoopCore rs) := by
  refine ⟨?_, ?_, ?_, ?_, ?_, ?_⟩
  · intro e h
    exact captureLoop_failure_retry maxErr e rs h
  · intro e h
    simp only [captureLoop]
    rw [if_pos h]
  · intro e e' f
    rfl
  · intro k hk
    simpa using captureLoop_below_threshold maxErr k 0 (by omega)
  · intro hmax
    exact captureLoop_fault_at_threshold maxErr maxErr 0 hmax (by omega) rs
  · intro k
    induction k with
    | zero => rfl
    | succ j ih =>
      rw [List.replicate_succ, List.cons_append]
      simpa [captureLoopCore] using ih

/-- Concrete instantiation of `C4_retry_policy`: ten consecutive failed
reads from a fresh loop fault it with the default threshold of 10. -/
theorem C4_witness :
    captureLoop 10 0 (List.replicate 10 none ++ []) = (CaptureExit.fault, []) :=
  (C4_retry_policy 10 []).2.2.2.2.1 (by norm_num)

/-! ### Frame fan-out -/

/-- The final store after the root variant's fan-out: one fresh copy of
the frame per non-GUI subscriber. -/
theorem distributeFrame_store (frame : Frame) :
    ∀ (subs : List Subscriber) (h : FrameStore),
      (distributeFrame h frame subs).1.bufs =
        h.bufs ++ List.replicate (subs.countP (fun s => !s.isGui)) frame := by
  intro subs
  induction subs with
  | nil => intro h; simp [distributeFrame]
  | cons s rest ih =>
    intro h
    by_cases hg : s.isGui
    · simp [distributeFrame, hg, ih, List.countP_cons]
    · simp [distributeFrame, hg, ih, allocBuf, List.countP_cons,
        List.replicate_succ]

/-- The deliveries of the root variant's fan-out: the non-GUI subscribers
in registration order, each with a freshly allocated consecutive buffer
id. -/
theorem distributeFrame_deliveries (frame : Frame) :
    ∀ (subs : List Subscriber) (h : FrameStore),
      (distributeFrame h frame subs).2.map Prod.fst =
        (subs.filter (fun s => !s.isGui)).map Subscriber.sid ∧
      (distributeFrame h frame subs).2.map Prod.snd =
        List.range' h.bufs.length ((subs.filter (fun s => !s.isGui)).length) 1 := by
  intro subs
  induction subs with
  | nil => intro h; simp [distributeFrame]
  | cons s rest ih =>
    intro h
    by_cases hg : s.isGui
    · simpa [distributeFrame, hg] using ih h
    · obtain ⟨ih1, ih2⟩ := ih ⟨h.bufs ++ [frame]⟩
      constructor
      · simp [distributeFrame, hg, allocBuf, ih1]
      · have hfc : List.filter (fun s => !s.isGui) (s :: rest) =
            s :: List.filter (fun s => !s.isGui) rest :=
          List.filter_cons_of_pos (by simp [hg])
        simp only [distributeFrame, hg, Bool.false_eq_true, if_false, allocBuf,
          List.map_cons, ih2, hfc, List.length_cons, List.length_append,
          List.length_singleton, List.length_nil, Nat.zero_add]
        rw [List.range'_succ]

/-- C5 counterexample: the core variant's `_distribute_frame` allocates a
single copy and hands the same buffer to every subscriber, so two distinct
subscribers share it: here both subscribers receive buffer `0`, and a
write through that shared buffer changes what either of them reads. -/
theorem C5_counterexample :
    (distributeFrameCore ⟨[]⟩ [7] [⟨0, false⟩, ⟨1, false⟩]).2 =
        [(0, 0), (1, 0)] ∧
    readBuf (writeBuf (distributeFrameCore ⟨[]⟩ [7]
        [⟨0, false⟩, ⟨1, false⟩]).1 0 [9]) 0 = [9] := by
  exact ⟨rfl, rfl⟩

/-- C5 (amended): in `src/camera_manager.py`'s `_distribute_frame`, each
(non-GUI) subscriber is invoked in registration order with its own freshly
copied buffer — buffers of distinct deliveries are distinct and writing
one never changes another — while the core variant's `_distribute_frame`
hands the same single copy to every subscriber. -/
theorem C5_distribute (h : FrameStore) (frame : Frame) (subs : List Subscriber) :
    (∀ i j : ℕ, i ≠ j → ∀ d1 d2 : ℕ × ℕ,
      (distributeFrame h frame subs).2[i]? = some d1 →
      (distributeFrame h frame subs).2[j]? = some d2 → d1.2 ≠ d2.2) ∧
    (∀ d : ℕ × ℕ, d ∈ (distributeFrame h frame subs).2 →
      readBuf (distributeFrame h frame subs).1 d.2 = frame) ∧
    ((distributeFrame h frame subs).2.map Prod.fst =
      (subs.filter (fun s => !s.isGui)).map Subscriber.sid) ∧
    (∀ (h2 : FrameStore) (b b2 : ℕ) (c : Frame), b ≠ b2 →
      readBuf (writeBuf h2 b c) b2 = readBuf h2 b2) ∧
    (∀ d : ℕ × ℕ, d ∈ (distributeFrameCore h frame subs).2 →
      d.2 = h.bufs.length) := by
  obtain ⟨hfst, hsnd⟩ := distributeFrame_deliveries frame subs h
  refine ⟨?_, ?_, hfst, ?_, ?_⟩
  · intro i j hij d1 d2 h1 h2
    have g1 : (List.map Prod.snd (distributeFrame h frame subs).2)[i]? =
        some d1.2 := by
      rw [List.getElem?_map, h1]
      rfl
    have g2 : (List.map Prod.snd (distributeFrame h frame subs).2)[j]? =
        some d2.2 := by
      rw [List.getElem?_map, h2]
      rfl
    rw [hsnd] at g1 g2
    obtain ⟨hi, -⟩ := List.getElem?_eq_some_iff.mp g1
    obtain ⟨hj, -⟩ := List.getElem?_eq_some_iff.mp g2
    rw [List.length_range'] at hi hj
    rw [List.getElem?_range' _ _ hi] at g1
    rw [List.getElem?_range' _ _ hj] at g2
    have e1 : d1.2 = h.bufs.length + 1 * i := (Option.some.inj g1).symm
    have e2 : d2.2 = h.bufs.length + 1 * j := (Option.some.inj g2).symm
    rw [e1, e2]
    omega
  · intro d hd
    have hmem : d.2 ∈ List.map Prod.snd (distributeFrame h frame subs).2 :=
      List.mem_map_of_mem Prod.snd hd
    rw [hsnd, List.mem_range'] at hmem
    obtain ⟨i, hi, hval⟩ := hmem
    have hlen : (subs.filter (fun s => !s.isGui)).length =
        subs.countP (fun s => !s.isGui) :=
      (List.countP_eq_length_filter _ _).symm
    rw [readBuf, distributeFrame_store frame subs h, hval,
      List.getD_append_right _ _ _ _ (by omega)]
    have hidx : h.bufs.length + 1 * i - h.bufs.length = i := by omega
    rw [hidx, List.getD_eq_getElem?_getD, List.getElem?_replicate,
      if_pos (by omega)]
    rfl
  · intro h2 b b2 c hne
    rw [readBuf, readBuf, writeBuf, List.getD_eq_getElem?_getD,
      List.getD_eq_getElem?_getD, List.getElem?_set_ne hne]
  · intro d hd
    simp only [distributeFrameCore, allocBuf, List.mem_map] at hd
    obtain ⟨s, -, hs⟩ := hd
    rw [← hs]

/-- Concrete instantiation of `C5_distribute`: two non-GUI subscribers
receive deliveries in registration order. -/
theorem C5_witness :
    (distributeFrame ⟨[]⟩ [7] [⟨0, false⟩, ⟨1, false⟩]).2.map Prod.fst =
      [0, 1] := by
  have h := (C5_distribute ⟨[]⟩ [7] [⟨0, false⟩, ⟨1, false⟩]).2.2.1
  simpa using h

/-! ### Cache removal -/

/-- Erasing a key from the ledger removes it. -/
theorem ledgerLookup_ledgerErase (l : Ledger) (k : ℤ) :
    ledgerLookup (ledgerErase l k) k = none := by
  induction l with
  | nil => rfl
  | cons p rest ih =>
    by_cases h : p.1 = k
    · rw [ledgerErase, List.filter_cons_of_neg (by simp [h])]
      exact ih
    · rw [ledgerErase, List.filter_cons_of_pos (by simp [h])]
      simpa [ledgerLookup, h] using ih

/-- The core variant's removal loop finds an entry whenever one with the
id is present. -/
theorem removeFirstById_isSome (uid : ℤ) :
    ∀ (cache : List CachedUser) (u : CachedUser), u ∈ cache → u.id = uid →
      ∃ c', removeFirstById cache uid = some c' := by
  intro cache
  induction cache with
  | nil => intro u hu; simp at hu
  | cons a rest ih =>
    intro u hu hid
    by_cases ha : a.id = uid
    · exact ⟨rest, by simp [removeFirstById, ha]⟩
    · rcases List.mem_cons.mp hu with rfl | hmem
      · exact absurd hid ha
      · obtain ⟨c', hc'⟩ := ih u hmem hid
        exact ⟨a :: c', by simp [removeFirstById, ha, hc']⟩

/-- The core variant's removal loop deletes exactly one matching entry. -/
theorem removeFirstById_countP (uid : ℤ) :
    ∀ cache c' : List CachedUser, removeFirstById cache uid = some c' →
      c'.countP (fun v => v.id == uid) =
        cache.countP (fun v => v.id == uid) - 1 := by
  intro cache
  induction cache with
  | nil => intro c' h; simp [removeFirstById] at h
  | cons a rest ih =>
    intro c' h
    by_cases ha : a.id = uid
    · rw [removeFirstById, if_pos (by simpa using ha)] at h
      obtain rfl : rest = c' := Option.some.inj h
      rw [List.countP_cons, if_pos (by simpa using ha)]
      omega
    · rw [removeFirstById, if_neg (by simpa using ha)] at h
      obtain ⟨c2, hc2, rfl⟩ := Option.map_eq_some'.mp h
      rw [List.countP_cons, if_neg (by simpa using ha),
        List.countP_cons, if_neg (by simpa using ha)]
      simpa using ih c2 hc2

/-- C6 counterexample: in the core variant, `remove_face(1)` on a cache
holding two entries with id `1` leaves one of them behind — the loop
`break`s after the first deletion. -/
theorem C6_counterexample :
    ([(⟨1, "E001", "Alice", [1]⟩ : CachedUser),
        ⟨1, "E002", "Alicia", [2]⟩].countP (fun u => u.id == 1) = 2) ∧
    ((removeFaceCore [⟨1, "E001", "Alice", [1]⟩, ⟨1, "E002", "Alicia", [2]⟩]
        [] 1).1).any (fun u => u.id == 1) = true := by
  exact ⟨rfl, rfl⟩

/-- C6 (amended): `remove_face` in `src/face_recognition_engine.py`
removes every cache entry with the given id, keeps all others, purges the
id from the cooldown ledger and persists the snapshot; the core variant
(src/core/face_recognition_engine.py) removes only the first matching
entry. -/
theorem C6_remove_face (cache : List CachedUser) (ledger : Ledger) (uid : ℤ) :
    (∀ u, u ∈ (removeFace cache ledger uid).1 → u.id ≠ uid) ∧
    (∀ u, u ∈ cache → u.id ≠ uid → u ∈ (removeFace cache ledger uid).1) ∧
    (ledgerLookup (removeFace cache ledger uid).2.1 uid = none) ∧
    ((removeFace cache ledger uid).2.2 = some (removeFace cache ledger uid).1) ∧
    (∀ u, u ∈ cache → u.id = uid →
      ((removeFaceCore cache ledger uid).1).countP (fun v => v.id == uid) =
        cache.countP (fun v => v.id == uid) - 1) := by
  refine ⟨?_, ?_, ?_, rfl, ?_⟩
  · intro u hu
    have := List.of_mem_filter hu
    simpa using this
  · intro u hu hne
    exact List.mem_filter.mpr ⟨hu, by simpa using hne⟩
  · exact ledgerLookup_ledgerErase ledger uid
  · intro u hu hid
    obtain ⟨c', hc'⟩ := removeFirstById_isSome uid cache u hu hid
    rw [removeFaceCore, hc']
    exact removeFirstById_countP uid cache c' hc'

/-- Concrete instantiation of `C6_remove_face`: removing user `1` purges
its cooldown entry. -/
theorem C6_witness :
    ledgerLookup (removeFace [⟨1, "E001", "Alice", [1]⟩] [(1, 5)] 1).2.1 1 =
      none :=
  (C6_remove_face [⟨1, "E001", "Alice", [1]⟩] [(1, 5)] 1).2.2.1

/-! ### Cache insertion and eviction -/

theorem pySliceLast_of_pos (k : ℕ) (l : List CachedUser) (hk : k ≠ 0) :
    pySliceLast k l = l.drop (l.length - k) := by
  simp [pySliceLast, hk]

set_option maxRecDepth 4000 in
/-- C7 counterexample: the core variant's `add_new_face` has no cache
bound: registering a valid identity into a cache already holding 1000
entries (the default maximum) grows it to 1001. -/
theorem C7_counterexample :
    ((addNewFaceCore (List.replicate 1000 ⟨0, "", "", List.replicate 128 0⟩)
        ⟨1, "u1", "n1", some (List.replicate 128 0)⟩).1).length = 1001 := by
  have hu : toCachedUser ⟨1, "u1", "n1", some (List.replicate 128 0)⟩ =
      some ⟨1, "u1", "n1", List.replicate 128 0⟩ := by
    show (if (List.replicate 128 (0 : ℚ)).length = 128 then _ else none) = _
    rw [List.length_replicate, if_pos rfl]
    rfl
  simp only [addNewFaceCore, hu]
  rw [List.length_append, List.length_replicate, List.length_singleton]

/-- C7 (amended): `add_new_face` in `src/face_recognition_engine.py`
appends a dimension-validated entry, persists the snapshot, and trims the
cache to its most recent `maxCache` entries (default 1000), evicting the
oldest first, so the size never exceeds the maximum after a register; the
core variant appends with no bound. -/
theorem C7_add_new_face (maxCache : ℕ) (cache : List CachedUser) (row : UserRow)
    (hmax : 1 ≤ maxCache) :
    (∀ u, toCachedUser row = some u →
      (addNewFace maxCache cache row).1.length = min (cache.length + 1) maxCache ∧
      (addNewFace maxCache cache row).1.length ≤ maxCache ∧
      (addNewFace maxCache cache row).1 <:+ cache ++ [u] ∧
      (addNewFace maxCache cache row).1.getLast? = some u ∧
      (addNewFace maxCache cache row).2 = some (addNewFace maxCache cache row).1) ∧
    (toCachedUser row = none → addNewFace maxCache cache row = (cache, none)) ∧
    (∀ u, toCachedUser row = some u →
      addNewFaceCore cache row = (cache ++ [u], some (cache ++ [u]))) := by
  refine ⟨?_, ?_, ?_⟩
  · intro u hu
    simp only [addNewFace, hu]
    by_cases hlen : (cache ++ [u]).length > maxCache
    · rw [if_pos hlen, pySliceLast_of_pos maxCache _ (by omega)]
      simp only [List.length_append, List.length_singleton] at hlen ⊢
      have hdrop : cache.length + 1 - maxCache ≤ cache.length := by omega
      refine ⟨?_, ?_, ?_, ?_, ?_⟩
      · rw [List.length_drop]
        simp only [List.length_append, List.length_singleton]
        omega
      · rw [List.length_drop]
        simp only [List.length_append, List.length_singleton]
        omega
      · exact List.drop_suffix _ _
      · rw [List.drop_append_of_le_length (by simpa using hdrop)]
        exact List.getLast?_concat _
      · trivial
    · rw [if_neg hlen]
      simp only [List.length_append, List.length_singleton] at hlen
      refine ⟨?_, ?_, List.suffix_refl _, List.getLast?_concat _, ?_⟩
      · simp only [List.length_append, List.length_singleton]
        omega
      · simp only [List.length_append, List.length_singleton]
        omega
      · trivial
  · intro hu
    simp [addNewFace, hu]
  · intro u hu
    simp [addNewFaceCore, hu]

/-- Concrete instantiation of `C7_add_new_face`: with `maxCache = 2`, a
third valid registration leaves the cache at size 2. -/
theorem C7_witness :
    (addNewFace 2 [⟨1, "a", "A", List.replicate 128 0⟩,
        ⟨2, "b", "B", List.replicate 128 0⟩]
      ⟨3, "c", "C", some (List.replicate 128 0)⟩).1.length = 2 := by
  have h := ((C7_add_new_face 2
      [⟨1, "a", "A", List.replicate 128 0⟩, ⟨2, "b", "B", List.replicate 128 0⟩]
      ⟨3, "c", "C", some (List.replicate 128 0)⟩ (by norm_num)).1
      ⟨3, "c", "C", List.replicate 128 0⟩ (by simp [toCachedUser])).1
  simpa using h

/-! ### Snapshot loading -/

/-- C8: a corrupt or unreadable snapshot never propagates an error and
never loses Identity Store records: loading behaves exactly as if the
snapshot were absent and rebuilds the cache from the store, keeping every
valid store row. -/
theorem C8_snapshot_fallback (fresh : Bool) (rows : List UserRow) :
    loadKnownFaces (some none) fresh rows = loadKnownFaces none fresh rows ∧
    loadKnownFaces (some none) fresh rows = validCachedUsers rows ∧
    (∀ (row : UserRow) (u : CachedUser), row ∈ rows → toCachedUser row = some u →
      u ∈ loadKnownFaces (some none) fresh rows) := by
  refine ⟨?_, ?_, ?_⟩
  · cases fresh <;> rfl
  · cases fresh <;> rfl
  · intro row u hrow hu
    have heq : loadKnownFaces (some none) fresh rows = validCachedUsers rows := by
      cases fresh <;> rfl
    rw [heq, validCachedUsers]
    exact List.mem_filterMap.mpr ⟨row, hrow, hu⟩

/-- Concrete instantiation of `C8_snapshot_fallback`: a corrupt fresh
snapshot falls back to the database rebuild. -/
theorem C8_witness :
    loadKnownFaces (some none) true [⟨1, "a", "A", some (List.replicate 128 0)⟩] =
      validCachedUsers [⟨1, "a", "A", some (List.replicate 128 0)⟩] :=
  (C8_snapshot_fallback true [⟨1, "a", "A", some (List.replicate 128 0)⟩]).2.1

end FaceAttend
